import Mathlib

/-!
Shallow embedding of the RAZIEL NDVI console core (src/NDVIApp.cpp,
src/CaptureThread.cpp) for checking the natural-language specification.

Modelling conventions:
* A 32-bit float value is modelled as `Option ℚ`: `some q` is a finite value
  (float arithmetic idealized as exact rational arithmetic), `none` is NaN.
  None of the checked claims depends on float rounding error; where a claim
  does depend on a rounding step that the code performs explicitly
  (`cvRound`, C-style truncation in a float-to-int cast), that step is
  modelled exactly on rationals.
* A cv::Mat is a list of rows; `Mat.empty()` in OpenCV means total() = 0.
* Machine integers stay well inside 32 bits in all the uses modelled here,
  so they are modelled as ℤ / ℕ.
-/

namespace Raziel

/-- Finite-or-NaN float value: `some q` finite, `none` NaN. -/
abbrev F := Option ℚ

/-- Matrix of float values (CV_32F cv::Mat), row-major list of rows. -/
abbrev FMat := List (List F)

/-- Matrix of finite float values (after an operation that removes NaN). -/
abbrev QMat := List (List ℚ)

/-- One BGR pixel of an 8-bit frame: channel 0 = blue, 1 = green, 2 = red. -/
structure Pixel where
  b : ℕ
  g : ℕ
  r : ℕ
deriving DecidableEq, Repr

/-- Camera frame: 8-bit BGR image as a list of rows. -/
abbrev Frame := List (List Pixel)

/-- One stored LUT entry: the three 8-bit channels in storage order
(channel 0, channel 1, channel 2) exactly as they sit in the CV_8UC3 table. -/
abbrev LutEntry := ℕ × ℕ × ℕ

/-- Element lookup in a list-of-rows matrix: row y, column x. -/
def entry (m : List (List α)) (y x : ℕ) : Option α :=
  (m.get? y).bind (fun row => row.get? x)

/-- Total number of elements of a matrix; OpenCV `Mat::empty()` is
`total() = 0`. -/
def totalCount (m : List (List α)) : ℕ :=
  (m.map List.length).sum

/-- IEEE float equality test `x == y`: false whenever either side is NaN,
in particular `NaN == NaN` is false.  This is the `v == v` NaN filter the
source uses in `autoCalibrate`. -/
def fEq : F → F → Bool
  | some x, some y => decide (x = y)
  | _, _ => false

/-- Float addition with NaN propagation. -/
def fAdd : F → F → F
  | some x, some y => some (x + y)
  | _, _ => none

/-- Float subtraction of a finite scalar, NaN propagating
(`cv::subtract(ndvi, vmin, norm)`). -/
def fSubC (v : F) (c : ℚ) : F := v.map (fun x => x - c)

/-- Float division by a finite scalar, NaN propagating
(`cv::divide(norm, vmax - vmin, norm)`; the divisor is nonzero at every
use site in the code). -/
def fDivC (v : F) (c : ℚ) : F := v.map (fun x => x / c)

/-- Truncation toward zero, the C++ float-to-int conversion `int(x)`. -/
def truncQ (q : ℚ) : ℤ := if 0 ≤ q then ⌊q⌋ else ⌈q⌉

/-- Rounding to nearest integer as OpenCV `cvRound` does (the half-tie is
taken upward here; the code rounds half to even, and no checked claim
evaluates the conversion at an exact half-tie). -/
def cvRound (q : ℚ) : ℤ := ⌊q + 1 / 2⌋

/-- Saturation of an integer into the 8-bit range, `saturate_cast<uchar>`. -/
def saturateU8 (z : ℤ) : ℕ := (min 255 (max 0 z)).toNat

/-- Denominator guard of the NDVI quotient, `EPSILON = 1e-9f` in the source
(idealized to the exact decimal the literal denotes). -/
def EPSILON : ℚ := 1 / 1000000000

/-- NDVI value of one pixel: `(R - B) / (R + B + EPSILON)` computed on the
float conversions of the 8-bit channels; the denominator is strictly
positive, so the result is always finite. -/
def ndviOfPixel (p : Pixel) : ℚ :=
  ((p.r : ℚ) - (p.b : ℚ)) / ((p.r : ℚ) + (p.b : ℚ) + EPSILON)

/-- Channel split of a 3-channel frame, `cv::split(f, channels)`: on an
empty input OpenCV releases the output vector, so the result is the empty
list of channel planes; otherwise the three planes B, G, R in that order. -/
def cvSplit (f : Frame) : List QMat :=
  if totalCount f = 0 then []
  else
    [f.map (fun row => row.map (fun p => (p.b : ℚ))),
     f.map (fun row => row.map (fun p => (p.g : ℚ))),
     f.map (fun row => row.map (fun p => (p.r : ℚ)))]

/-- Threshold `cv::threshold(norm, norm, 0.0, 0.0, THRESH_TOZERO)` on one
float value: keep the value where it compares strictly greater than 0, set
0 elsewhere; a NaN fails the comparison and becomes 0. -/
def threshToZero (v : F) : ℚ :=
  match v with
  | some x => if 0 < x then x else 0
  | none => 0

/-- Threshold `cv::threshold(norm, norm, 1.0, 1.0, THRESH_TRUNC)` on one
finite value: replace values strictly greater than 1 by 1. -/
def threshTrunc1 (x : ℚ) : ℚ := if 1 < x then 1 else x

/-- Normalization of one NDVI value to [0,1] as in `computeNDVI`: the
degenerate range produces 0 (the all-zero matrix branch), otherwise
subtract vmin, divide by the width, then the two thresholds. -/
def normalize (vmin vmax : ℚ) (v : F) : ℚ :=
  if vmax ≤ vmin then 0
  else threshTrunc1 (threshToZero (fDivC (fSubC v vmin) (vmax - vmin)))

/-- Matrix-level normalization step of `computeNDVI`: `cv::Mat::zeros` of
the same size when `vmax <= vmin`, else the pointwise chain. -/
def normalizeMat (vmin vmax : ℚ) (n : FMat) : QMat :=
  if vmax ≤ vmin then n.map (fun row => row.map (fun _ => 0))
  else n.map (fun row => row.map (fun v =>
    threshTrunc1 (threshToZero (fDivC (fSubC v vmin) (vmax - vmin)))))

/-- Conversion `norm.convertTo(idx, CV_8U, 255.0)` of one value: scale by
255, round, saturate to 8 bits. -/
def u8scale255 (x : ℚ) : ℕ := saturateU8 (cvRound (x * 255))

/-- LUT application by three per-channel 1-D lookups merged back in channel
order (`cv::LUT` on each of the split LUT planes, then `cv::merge`): output
channel k at a pixel is LUT channel k at that pixel's index value. -/
def applyLUT (lut : List LutEntry) (idx : List (List ℕ)) : List (List LutEntry) :=
  idx.map (fun row => row.map (fun i => lut.getD i (0, 0, 0)))

/-- NDVI kernel `NDVIApp::computeNDVI`.  Returns `none` when the channel
accesses `channels[0] .. channels[2]` fall outside the split result (which
happens exactly on an empty frame, where `cv::split` released the channel
vector); otherwise the coloured image and the raw NDVI matrix. -/
def computeNDVI (frame : Frame) (vmin vmax : ℚ) (lut : List LutEntry) :
    Option (List (List LutEntry) × FMat) :=
  let chans := cvSplit frame
  match chans.get? 0, chans.get? 1, chans.get? 2 with
  | some bc, some _, some rc =>
      let ndvi : FMat :=
        (List.zip rc bc).map (fun rb =>
          (List.zip rb.1 rb.2).map (fun p =>
            some ((p.1 - p.2) / (p.1 + p.2 + EPSILON))))
      let norm := normalizeMat vmin vmax ndvi
      let idx := norm.map (fun row => row.map u8scale255)
      some (applyLUT lut idx, ndvi)
  | _, _, _ => none

/-- Color with float components in [0,1], as `QColor::redF/greenF/blueF`
expose them (the 16-bit internal quantization of QColor is idealized away;
all anchor components used by the named palettes are exact at 16 bits). -/
structure ColorF where
  r : ℚ
  g : ℚ
  b : ℚ
deriving DecidableEq, Repr

/-- Interpolated float color for LUT index i in `makeLUT`: t = i/255, the
first half interpolates c1 to c2 with u = 2t, the second half c2 to c3 with
u = 2(t - 1/2). -/
def lutEntryF (c1 c2 c3 : ColorF) (i : ℕ) : ColorF :=
  let t : ℚ := i / 255
  if t < 1 / 2 then
    let u := t * 2
    ⟨c1.r + u * (c2.r - c1.r), c1.g + u * (c2.g - c1.g), c1.b + u * (c2.b - c1.b)⟩
  else
    let u := (t - 1 / 2) * 2
    ⟨c2.r + u * (c3.r - c2.r), c2.g + u * (c3.g - c2.g), c2.b + u * (c3.b - c2.b)⟩

/-- Quantization of one float channel by `lutF.convertTo(lut8, CV_8UC3, 255.0)`:
multiply by 255, round, saturate to 8 bits. -/
def quant255 (q : ℚ) : ℕ := saturateU8 (cvRound (q * 255))

/-- Stored 8-bit LUT entry for index i.  The source writes
`cv::Vec3f(c.redF(), c.greenF(), c.blueF())`, so storage channel 0 is the
red component, channel 1 green, channel 2 blue. -/
def lutEntry8 (c1 c2 c3 : ColorF) (i : ℕ) : LutEntry :=
  (quant255 (lutEntryF c1 c2 c3 i).r,
   quant255 (lutEntryF c1 c2 c3 i).g,
   quant255 (lutEntryF c1 c2 c3 i).b)

/-- Palette Builder `NDVIApp::makeLUT`: the 256-entry table. -/
def makeLUT (c1 c2 c3 : ColorF) : List LutEntry :=
  (List.range 256).map (lutEntry8 c1 c2 c3)

/-- Hypothetical BGR-ordered table following the words of the spec
(channel 0 = blue, channel 1 = green, channel 2 = red), for comparison
with `makeLUT`. -/
def makeLUTspecBGR (c1 c2 c3 : ColorF) : List LutEntry :=
  (List.range 256).map (fun i =>
    (quant255 (lutEntryF c1 c2 c3 i).b,
     quant255 (lutEntryF c1 c2 c3 i).g,
     quant255 (lutEntryF c1 c2 c3 i).r))

/-- Anchor color Qt::blue. -/
def qtBlue : ColorF := ⟨0, 0, 1⟩

/-- Anchor color Qt::yellow. -/
def qtYellow : ColorF := ⟨1, 1, 0⟩

/-- Anchor color Qt::red. -/
def qtRed : ColorF := ⟨1, 0, 0⟩

/-- Telemetry mean `cv::mean(ndvi)[0]`: the plain arithmetic mean over all
elements, with no NaN handling, so a NaN element propagates into the sum
and the mean (`cv::mean` of an empty matrix is 0). -/
def cvMean (n : FMat) : F :=
  if totalCount n = 0 then some 0
  else fDivC (n.flatten.foldl fAdd (some 0)) (totalCount n)

/-- NaN-excluded arithmetic mean over the full frame, following the words
of the spec, for comparison with `cvMean`. -/
def nanExcludedMean (n : FMat) : F :=
  let vs := n.flatten.filterMap id
  if vs.length = 0 then none else some (vs.sum / vs.length)

/-- Telemetry lines of `drawOverlay`: the FPS value printed is the member
`m_fps`, the mean is `cv::mean` of the NDVI matrix, the center value is
the element at row h/2, column w/2. -/
structure Telemetry where
  fpsLine : ℚ
  meanLine : F
  ctrLine : Option F
deriving Repr

/-- Telemetry content rendered by `drawOverlay` for a given `m_fps` and
NDVI matrix. -/
def telemetryOf (fps : ℚ) (ndvi : FMat) : Telemetry :=
  ⟨fps, cvMean ndvi, entry ndvi (ndvi.length / 2) ((ndvi.headD []).length / 2)⟩

/-- Masked copy `ndvi.copyTo(valid, ~mask)` with `mask = (ndvi != ndvi)` in
`updatePreview`: the destination is freshly allocated and therefore
zero-initialized by OpenCV, the copy writes only where the complement mask
is set (finite positions), so every NaN position holds the float 0 in the
result and the result has the full size of the input. -/
def copyToMasked (n : FMat) : QMat :=
  n.map (fun row => row.map (fun v => if fEq v v then v.getD 0 else 0))

/-- Histogram input list `data.assign(valid.datastart, valid.dataend)`:
every element of the masked copy, i.e. one entry per pixel of the NDVI
matrix, NaN pixels contributing the value 0. -/
def previewData (n : FMat) : List ℚ := (copyToMasked n).flatten

/-- Raw bin value `int((v - vmin) / (vmax - vmin) * bins)` of the preview
histogram.  The quotient is an unguarded float division: when
`vmax - vmin = 0` it yields infinity or NaN and the C float-to-int cast of
that is undefined, modelled as `none`; otherwise the exact truncated value. -/
def binRaw (vmin vmax v : ℚ) : Option ℤ :=
  if vmax - vmin = 0 then none
  else some (truncQ ((v - vmin) / (vmax - vmin) * 50))

/-- Clamp of the raw bin into [0, 49]: `if (b < 0) b = 0; else if (b >= bins) b = bins - 1`. -/
def binClamp (b : ℤ) : ℕ := if b < 0 then 0 else if 50 ≤ b then 49 else b.toNat

/-- Bin index of one histogram value, clamp applied after the raw cast. -/
def binOf (vmin vmax v : ℚ) : Option ℕ := (binRaw vmin vmax v).map binClamp

/-- Histogram counting loop `hist[b]++` over the data list, starting from
the 50 zero bins (`std::vector<int> hist(bins, 0)`).  The degenerate-range
case, undefined in the source, defaults the bin to 0 here. -/
def histCounts (vmin vmax : ℚ) (data : List ℚ) : List ℕ :=
  data.foldl
    (fun h v =>
      let b := (binOf vmin vmax v).getD 0
      h.set b (h.getD b 0 + 1))
    (List.replicate 50 0)

/-- ROI slider state read by `autoCalibrate` and `drawOverlay`. -/
structure RoiState where
  enabled : Bool
  left : ℤ
  right : ℤ
  top : ℤ
  bottom : ℤ
deriving Repr

/-- Sample selection of `autoCalibrate`: the ROI submatrix
`m_lastNDVI(Range(y0, y1), Range(x0, x1))` when the ROI is enabled and
valid (x1 > x0 and y1 > y0), the full matrix otherwise. -/
def sampleOf (roi : RoiState) (n : FMat) : FMat :=
  if roi.enabled then
    let h : ℤ := n.length
    let w : ℤ := (n.headD []).length
    let x0 := truncQ ((roi.left : ℚ) / 100 * w)
    let x1 := truncQ ((roi.right : ℚ) / 100 * w)
    let y0 := truncQ ((roi.top : ℚ) / 100 * h)
    let y1 := truncQ ((roi.bottom : ℚ) / 100 * h)
    if x0 < x1 ∧ y0 < y1 then
      ((n.drop y0.toNat).take (y1 - y0).toNat).map
        (fun row => (row.drop x0.toNat).take (x1 - x0).toNat)
    else n
  else n

/-- Flatten-and-filter loop of `autoCalibrate`: row by row, column by
column, push the value exactly when `v == v` holds (the IEEE NaN test). -/
def calibVals (s : FMat) : List ℚ :=
  s.foldl
    (fun acc row =>
      row.foldl (fun a v => if fEq v v then a ++ [v.getD 0] else a) acc)
    []

/-- Ascending sort `std::sort(vals.begin(), vals.end())`. -/
def sortAsc (l : List ℚ) : List ℚ := l.insertionSort (· ≤ ·)

/-- Clamping performed by `QSlider::setValue` for a slider with range
[-100, 100]. -/
def sliderSet (v : ℤ) : ℤ := max (-100) (min 100 v)

/-- Auto-calibration `NDVIApp::autoCalibrate`: `none` models the early
returns (no frame yet, or no finite values); otherwise the pair of new
(min, max) slider values.  The percentile indices are
`max(0, int(0.02f * n))` and `min(n - 1, int(0.98f * n))`; for every
realistic element count (below two million) the float products
`0.02f * n` and `0.98f * n` truncate to the same integers as the exact
rational products, which is how they are modelled.  The slider values are
`int(p * 100.0f)`, a truncation toward zero. -/
def autoCalibrate (roi : RoiState) (lastNDVI : FMat) : Option (ℤ × ℤ) :=
  if totalCount lastNDVI = 0 then none
  else
    let vals := calibVals (sampleOf roi lastNDVI)
    if vals.isEmpty then none
    else
      let sorted := sortAsc vals
      let n : ℤ := sorted.length
      let idx2 : ℤ := max 0 (truncQ ((2 : ℚ) / 100 * n))
      let idx98 : ℤ := min (n - 1) (truncQ ((98 : ℚ) / 100 * n))
      let p2 := sorted.getD idx2.toNat 0
      let p98 := sorted.getD idx98.toNat 0
      some (sliderSet (truncQ (p2 * 100)), sliderSet (truncQ (p98 * 100)))

/-- Persisted triple of `saveSettings` / `restoreSettings`, the parsed
content of raziel_settings.json. -/
structure SettingsDoc where
  minV : ℤ
  maxV : ℤ
  palette : String
deriving DecidableEq, Repr

/-- Slice of the UI state that the settings code touches: the two slider
values and the palette combo index. -/
structure UIState where
  minS : ℤ
  maxS : ℤ
  paletteIdx : ℕ
deriving DecidableEq, Repr

/-- Names in the palette combo box, in item order. -/
def paletteNames : List String := ["NDVI Classic", "Infrared", "Thermal", "Grayscale"]

/-- Serialize `saveSettings`: writes the current slider values and
`m_paletteBox->currentText()` (the name at the current index). -/
def saveSettings (u : UIState) : SettingsDoc :=
  ⟨u.minS, u.maxS, paletteNames.getD u.paletteIdx ""⟩

/-- Lookup `m_paletteBox->findText(pal)`: index of the first item with the
given text, if any. -/
def findText (s : String) : Option ℕ :=
  paletteNames.findIdx? (fun nm => nm = s)

/-- Deserialize `restoreSettings` over a parsed document: the sliders are
set through `QSlider::setValue` (which clamps into the slider range); the
combo index changes only when `findText` succeeds.  The keys written by
`saveSettings` are always present with the checked JSON types, so the
`contains`/`isDouble`/`isString` guards pass on a saved document. -/
def restoreSettings (doc : SettingsDoc) (u : UIState) : UIState :=
  { minS := sliderSet doc.minV
  , maxS := sliderSet doc.maxV
  , paletteIdx :=
      match findText doc.palette with
      | some i => i
      | none => u.paletteIdx }

/-- State owned by the render context that `onFrameReady` reads or writes.
The field `fps` models the member `m_fps`: the constructor initializes it
to 0 and `onFrameReady` is the only frame-path code, which never assigns
it. -/
structure SchedState where
  lastProcessTime : ℚ
  fps : ℚ
  lastNDVI : Option FMat
  rawView : Option Frame
  procView : Option (List (List LutEntry))

/-- Constructor state: `m_lastProcessTime = 0`, `m_fps = 0`, no NDVI, no
published images yet. -/
def initState : SchedState := ⟨0, 0, none, none, none⟩

/-- Frame handler `NDVIApp::onFrameReady` at one arrival with wall-clock
time `now`.  The raw view is published unconditionally; the processed path
runs only when `now - m_lastProcessTime >= m_processInterval`, and then
sets `m_lastProcessTime = now`, stores the NDVI matrix and publishes the
processed image.  The processed-path image computation
(zoom, `computeNDVI`, optional blend, `drawOverlay`, resize) is the
parameter `proc`; the scheduling facts below hold for every such
computation. -/
def onFrameReady (proc : Frame → List (List LutEntry) × FMat) (interval : ℚ)
    (s : SchedState) (frame : Frame) (now : ℚ) : SchedState :=
  let s1 := { s with rawView := some frame }
  if now - s.lastProcessTime < interval then s1
  else
    { s1 with
        lastProcessTime := now
      , lastNDVI := some (proc frame).2
      , procView := some (proc frame).1 }

/-- Run of the scheduler over a list of frame arrivals (frame, time),
returning the final state together with the wall-clock times of the
arrivals that took the processed path. -/
def runSched (proc : Frame → List (List LutEntry) × FMat) (interval : ℚ) :
    SchedState → List (Frame × ℚ) → SchedState × List ℚ
  | s, [] => (s, [])
  | s, (f, t) :: rest =>
      let r := runSched proc interval (onFrameReady proc interval s f t) rest
      if t - s.lastProcessTime < interval then r else (r.1, t :: r.2)

/-! Helper lemmas about the pointwise pieces of the kernel. -/

theorem threshToZero_some (d : ℚ) : threshToZero (some d) = max 0 d := by
  by_cases h : 0 < d
  · simp [threshToZero, h, max_eq_right h.le]
  · simp [threshToZero, h, max_eq_left (not_lt.1 h)]

theorem threshTrunc1_eq (x : ℚ) : threshTrunc1 x = min 1 x := by
  by_cases h : 1 < x
  · simp [threshTrunc1, h, min_eq_left h.le]
  · simp [threshTrunc1, h, min_eq_right (not_lt.1 h)]

theorem normalize_nonneg (vmin vmax : ℚ) (v : F) : 0 ≤ normalize vmin vmax v := by
  unfold normalize
  split
  · exact le_refl 0
  · rw [threshTrunc1_eq]
    rcases v with _ | q
    · simp [fSubC, fDivC, threshToZero]
    · simp only [fSubC, fDivC, Option.map_some', threshToZero_some]
      exact le_min (by norm_num) (le_max_left 0 _)

theorem normalize_le_one (vmin vmax : ℚ) (v : F) : normalize vmin vmax v ≤ 1 := by
  unfold normalize
  split
  · norm_num
  · rw [threshTrunc1_eq]
    exact min_le_left 1 _

theorem normalize_nan (vmin vmax : ℚ) : normalize vmin vmax none = 0 := by
  unfold normalize
  split
  · rfl
  · simp only [fSubC, fDivC, Option.map_none', threshToZero, threshTrunc1]
    norm_num

theorem entry_map (g : α → β) (m : List (List α)) (y x : ℕ) (a : α)
    (h : entry m y x = some a) :
    entry (m.map (fun row => row.map g)) y x = some (g a) := by
  unfold entry at h ⊢
  cases hy : m.get? y with
  | none => rw [hy] at h; simp at h
  | some row =>
      rw [hy] at h
      simp only [Option.some_bind] at h
      rw [List.get?_map, hy]
      simp only [Option.map_some', Option.some_bind, List.get?_map, h]

/-- Claim C5: for every input frame and every range with vmax ≤ vmin, the
NDVI Kernel's normalized image is all zeros (a defined fallback); for
vmax > vmin the normalized image is pointwise
clamp((N − vmin)/(vmax − vmin), 0, 1). -/
theorem C5_normalized_fallback_and_clamp (vmin vmax : ℚ) (n : FMat) :
    (vmax ≤ vmin → normalizeMat vmin vmax n = n.map (fun row => row.map (fun _ => 0))) ∧
    (vmin < vmax → ∀ y x q, entry n y x = some (some q) →
      entry (normalizeMat vmin vmax n) y x =
        some (min 1 (max 0 ((q - vmin) / (vmax - vmin))))) := by
  constructor
  · intro h
    simp [normalizeMat, h]
  · intro hlt y x q hq
    have hnle : ¬ vmax ≤ vmin := not_le.2 hlt
    unfold normalizeMat
    rw [if_neg hnle]
    have := entry_map
      (fun v => threshTrunc1 (threshToZero (fDivC (fSubC v vmin) (vmax - vmin))))
      n y x (some q) hq
    rw [this]
    simp only [fSubC, fDivC, Option.map_some', threshToZero_some, threshTrunc1_eq]

/-- Witness for C5: a degenerate range (vmin = 1, vmax = 0) zeroes the
matrix, and the proper range (0, 1) clamps the value 1/2 to itself. -/
theorem C5_witness :
    normalizeMat 1 0 [[some 2]] = [[0]] ∧
    entry (normalizeMat 0 1 [[some (1/2)]]) 0 0 = some (1/2) := by
  constructor
  · exact (C5_normalized_fallback_and_clamp 1 0 [[some 2]]).1 (by norm_num)
  · have h := (C5_normalized_fallback_and_clamp 0 1 [[some (1/2)]]).2 (by norm_num)
      0 0 (1/2) rfl
    rw [h]
    norm_num

/-- Claim C6: every value used to index the LUT lies in [0, 255]: the
normalized value is clamped into [0, 1] (a NaN NDVI value is clamped to 0),
the scaled-and-rounded index is already in [0, 255] before saturation, and
the index is strictly below the 256-entry LUT length, so no out-of-bounds
LUT access is possible. -/
theorem C6_lut_index_in_bounds (vmin vmax : ℚ) (v : F) (c1 c2 c3 : ColorF) :
    0 ≤ normalize vmin vmax v ∧ normalize vmin vmax v ≤ 1 ∧
    (v = none → normalize vmin vmax v = 0) ∧
    0 ≤ cvRound (normalize vmin vmax v * 255) ∧
    cvRound (normalize vmin vmax v * 255) ≤ 255 ∧
    u8scale255 (normalize vmin vmax v) < (makeLUT c1 c2 c3).length := by
  have h0 := normalize_nonneg vmin vmax v
  have h1 := normalize_le_one vmin vmax v
  refine ⟨h0, h1, ?_, ?_, ?_, ?_⟩
  · intro hv; rw [hv]; exact normalize_nan vmin vmax
  · unfold cvRound
    rw [Int.le_floor]
    push_cast
    nlinarith
  · unfold cvRound
    have : normalize vmin vmax v * 255 + 1 / 2 < 256 := by nlinarith
    have hlt : (⌊normalize vmin vmax v * 255 + 1 / 2⌋ : ℤ) < 256 := by
      rw [Int.floor_lt]
      push_cast
      exact this
    omega
  · have hlen : (makeLUT c1 c2 c3).length = 256 := by
      simp [makeLUT]
    rw [hlen]
    unfold u8scale255 saturateU8
    omega

/-- Witness for C6: over the range (0, 1) a NaN value normalizes to 0 and
indexes the Thermal LUT in bounds. -/
theorem C6_witness :
    normalize 0 1 none = 0 ∧
    u8scale255 (normalize 0 1 none) < (makeLUT qtBlue qtYellow qtRed).length :=
  ⟨(C6_lut_index_in_bounds 0 1 none qtBlue qtYellow qtRed).2.2.1 rfl,
   (C6_lut_index_in_bounds 0 1 none qtBlue qtYellow qtRed).2.2.2.2.2⟩

/-- Claim C9 counterexample: on the 0×0 frame the kernel does not return
empty outputs; the channel split yields no channel planes and the kernel's
channel accesses fail (modelled as `none`), refuting the claimed
short-circuit to `some ([], [])`. -/
theorem C9_counterexample :
    computeNDVI [] (-1) 1 [] = none ∧ computeNDVI [] (-1) 1 [] ≠ some ([], []) := by
  constructor
  · rfl
  · intro h
    simp [computeNDVI, cvSplit, totalCount] at h

/-- Claim C9 amended: `computeNDVI` has no 0×0 short-circuit; on an empty
frame (total element count 0) `cv::split` releases the channel vector, the
accesses channels[0..2] are out of bounds, and no outputs are produced. -/
theorem C9_empty_frame_no_outputs (f : Frame) (hf : totalCount f = 0)
    (vmin vmax : ℚ) (lut : List LutEntry) :
    computeNDVI f vmin vmax lut = none := by
  unfold computeNDVI cvSplit
  rw [if_pos hf]
  rfl

/-- Witness for the amended C9: the literal 0×0 frame. -/
theorem C9_witness : computeNDVI [] 0 1 [] = none :=
  C9_empty_frame_no_outputs [] rfl 0 1 []

/-- Claim C2 counterexample: with the Thermal anchors (blue, yellow, red),
entry 0 of the built LUT is (0, 0, 255) — channel 0 holds the red
component of blue, not its blue component — while a BGR-ordered table
would store (255, 0, 0); the storage orders disagree already at entry 0. -/
theorem C2_counterexample :
    (makeLUT qtBlue qtYellow qtRed).get? 0 = some (0, 0, 255) ∧
    (makeLUTspecBGR qtBlue qtYellow qtRed).get? 0 = some (255, 0, 0) ∧
    (makeLUT qtBlue qtYellow qtRed).get? 0 ≠ (makeLUTspecBGR qtBlue qtYellow qtRed).get? 0 := by
  have he : lutEntryF qtBlue qtYellow qtRed 0 = ⟨0, 0, 1⟩ := by
    unfold lutEntryF qtBlue qtYellow
    norm_num
  have hq0 : quant255 0 = 0 := by
    unfold quant255 cvRound saturateU8
    norm_num [Int.floor_eq_iff]
  have hq1 : quant255 1 = 255 := by
    unfold quant255 cvRound saturateU8
    norm_num [Int.floor_eq_iff]
    decide
  have h1 : (makeLUT qtBlue qtYellow qtRed).get? 0 = some (0, 0, 255) := by
    unfold makeLUT
    rw [List.get?_map, List.get?_range (by norm_num)]
    simp only [Option.map_some', lutEntry8, he, hq0, hq1]
  have h2 : (makeLUTspecBGR qtBlue qtYellow qtRed).get? 0 = some (255, 0, 0) := by
    unfold makeLUTspecBGR
    rw [List.get?_map, List.get?_range (by norm_num)]
    simp only [Option.map_some', he, hq0, hq1]
  refine ⟨h1, h2, ?_⟩
  rw [h1, h2]
  decide

/-- Claim C2 amended: the LUT stores each entry in RGB channel order
(storage channel 0 = red, channel 1 = green, channel 2 = blue of the
interpolated anchor color), and the kernel's three per-channel 1-D LUT
applications perform no channel reordering: output channel k of the
colored image equals LUT channel k at the pixel's index value. -/
theorem C2_lut_rgb_order_no_reordering (c1 c2 c3 : ColorF) (i : ℕ) (h : i < 256)
    (lut : List LutEntry) (idxm : List (List ℕ)) (y x j : ℕ)
    (hj : entry idxm y x = some j) :
    (makeLUT c1 c2 c3).get? i =
      some (quant255 (lutEntryF c1 c2 c3 i).r,
            quant255 (lutEntryF c1 c2 c3 i).g,
            quant255 (lutEntryF c1 c2 c3 i).b) ∧
    entry (applyLUT lut idxm) y x = some (lut.getD j (0, 0, 0)) := by
  constructor
  · unfold makeLUT
    rw [List.get?_map, List.get?_range h]
    rfl
  · exact entry_map (fun k => lut.getD k (0, 0, 0)) idxm y x j hj

/-- Witness for the amended C2 at the Thermal anchors, index 0, and a
one-pixel index image. -/
theorem C2_witness :
    (makeLUT qtBlue qtYellow qtRed).get? 0 =
      some (quant255 (lutEntryF qtBlue qtYellow qtRed 0).r,
            quant255 (lutEntryF qtBlue qtYellow qtRed 0).g,
            quant255 (lutEntryF qtBlue qtYellow qtRed 0).b) ∧
    entry (applyLUT [] [[0]]) 0 0 = some (([] : List LutEntry).getD 0 (0, 0, 0)) :=
  C2_lut_rgb_order_no_reordering qtBlue qtYellow qtRed 0 (by decide) [] [[0]] 0 0 0 rfl

/-! Helper lemmas relating the three statistics paths to NaN content. -/

theorem fEq_nan : fEq none none = false := rfl

theorem fEq_self (q : ℚ) : fEq (some q) (some q) = true := by simp [fEq]

theorem calib_row_fold (row : List F) (acc : List ℚ) :
    row.foldl (fun a v => if fEq v v then a ++ [v.getD 0] else a) acc =
      acc ++ row.filterMap id := by
  induction row generalizing acc with
  | nil => simp
  | cons v vs ih =>
      cases v with
      | none => simp [fEq_nan, ih]
      | some q => simp [fEq_self, ih]

theorem calibVals_eq_finite (n : FMat) : calibVals n = n.flatten.filterMap id := by
  unfold calibVals
  suffices h : ∀ (rows : List (List F)) (acc : List ℚ),
      rows.foldl
        (fun acc row =>
          row.foldl (fun a v => if fEq v v then a ++ [v.getD 0] else a) acc)
        acc = acc ++ rows.flatten.filterMap id by
    simpa using h n []
  intro rows
  induction rows with
  | nil => simp
  | cons r rs ih =>
      intro acc
      simp only [List.foldl_cons]
      rw [calib_row_fold, ih, List.flatten_cons, List.filterMap_append,
        List.append_assoc]

theorem foldl_fAdd_from_none (l : List F) : l.foldl fAdd none = none := by
  induction l with
  | nil => rfl
  | cons v vs ih =>
      have h : fAdd none v = none := by cases v <;> rfl
      simp [h, ih]

theorem foldl_fAdd_nan (l : List F) (acc : F) (h : none ∈ l) :
    l.foldl fAdd acc = none := by
  induction l generalizing acc with
  | nil => simp at h
  | cons v vs ih =>
      rcases List.mem_cons.1 h with hv | hv
      · have hz : fAdd acc v = none := by rw [← hv]; cases acc <;> rfl
        simp [hz, foldl_fAdd_from_none]
      · rw [List.foldl_cons]
        exact ih (fAdd acc v) hv

/-- Claim C1 counterexample: on the 1×2 NDVI matrix [NaN, 1/2] the NaN
pixel is not excluded from the telemetry mean (cv::mean propagates it: the
mean is NaN, not the NaN-excluded value), and it is not excluded from the
histogram (it enters the data as the value 0 and contributes one count to
bin 25 of the range (−1, 1), a bin the finite value alone never touches);
only the auto-calibration value list drops it. -/
theorem C1_counterexample :
    cvMean [[none, some (1/2)]] = none ∧
    nanExcludedMean [[none, some (1/2)]] = some (1/2) ∧
    previewData [[none, some (1/2)]] = [0, 1/2] ∧
    (histCounts (-1) 1 (previewData [[none, some (1/2)]])).getD 25 0 = 1 ∧
    (histCounts (-1) 1 [(1/2 : ℚ)]).getD 25 0 = 0 ∧
    calibVals [[none, some (1/2)]] = [1/2] := by
  have hb0 : binOf (-1) 1 0 = some 25 := by
    unfold binOf binRaw truncQ binClamp
    norm_num [Int.floor_eq_iff]
    decide
  have hbh : binOf (-1) 1 (1/2) = some 37 := by
    unfold binOf binRaw truncQ binClamp
    norm_num [Int.floor_eq_iff]
    decide
  have hdata : previewData [[none, some (1/2)]] = [0, 1/2] := by
    simp [previewData, copyToMasked, fEq]
  refine ⟨?_, ?_, hdata, ?_, ?_, ?_⟩
  · rfl
  · simp [nanExcludedMean]
  · rw [hdata]
    unfold histCounts
    simp only [List.foldl_cons, List.foldl_nil, hb0, hbh, Option.getD_some]
    decide
  · unfold histCounts
    simp only [List.foldl_cons, List.foldl_nil, hbh, Option.getD_some]
    decide
  · simp [calibVals, fEq]

/-- Claim C1 amended: only the auto-calibration percentile list excludes
NaN pixels (it is exactly the finite values of the sample, in scan order);
the telemetry mean includes every pixel, so any NaN pixel makes the mean
NaN, and the histogram receives one data value per pixel of the full
matrix, a NaN pixel entering as the value 0. -/
theorem C1_nan_exclusion_only_in_percentiles (n : FMat) :
    calibVals n = n.flatten.filterMap id ∧
    (none ∈ n.flatten → cvMean n = none) ∧
    previewData n = n.flatten.map (fun v => v.getD 0) ∧
    (previewData n).length = totalCount n := by
  have hf : (fun v : F => if fEq v v then v.getD 0 else 0) = fun v : F => v.getD 0 := by
    funext v
    cases v <;> simp [fEq]
  have hdata : previewData n = n.flatten.map (fun v => v.getD 0) := by
    unfold previewData copyToMasked
    rw [hf, ← List.map_flatten]
  refine ⟨calibVals_eq_finite n, ?_, hdata, ?_⟩
  · intro hnan
    have hne : totalCount n ≠ 0 := by
      have hlen : n.flatten.length = totalCount n := List.length_flatten n
      have : 0 < n.flatten.length := List.length_pos.2 (List.ne_nil_of_mem hnan)
      omega
    unfold cvMean
    rw [if_neg hne, foldl_fAdd_nan _ _ hnan]
    rfl
  · rw [hdata, List.length_map, List.length_flatten]
    rfl

/-- Witness for the amended C1 at the one-pixel NaN matrix. -/
theorem C1_witness :
    cvMean [[none]] = none ∧ calibVals [[none]] = [] ∧
    previewData [[none]] = [0] :=
  ⟨(C1_nan_exclusion_only_in_percentiles [[none]]).2.1 (by simp),
   ((C1_nan_exclusion_only_in_percentiles [[none]]).1).trans (by simp),
   ((C1_nan_exclusion_only_in_percentiles [[none]]).2.2.1).trans (by simp)⟩

/-! Helper lemmas for the auto-calibration slider values. -/

theorem truncQ_of_nonneg (q : ℚ) (h : 0 ≤ q) : truncQ q = ⌊q⌋ := if_pos h

theorem truncQ_range (q : ℚ) (h1 : -100 ≤ q) (h2 : q ≤ 100) :
    -100 ≤ truncQ q ∧ truncQ q ≤ 100 := by
  unfold truncQ
  split
  · constructor
    · exact Int.le_floor.2 (by exact_mod_cast h1)
    · have h := (Int.floor_le q).trans h2
      exact_mod_cast h
  · constructor
    · have h := h1.trans (Int.le_ceil q)
      exact_mod_cast h
    · exact Int.ceil_le.2 (by exact_mod_cast h2)

theorem sliderSet_id (z : ℤ) (h1 : -100 ≤ z) (h2 : z ≤ 100) : sliderSet z = z := by
  unfold sliderSet
  omega

/-- Claim C4 counterexample: on a one-pixel NDVI matrix with value 0.6255
both percentiles are 0.6255, and the code sets both sliders to
int(62.55) = 62, not round(62.55) = 63: the slider update truncates toward
zero instead of rounding. -/
theorem C4_counterexample :
    autoCalibrate ⟨false, 0, 100, 0, 100⟩ [[some (1251/2000)]] = some (62, 62) ∧
    round ((1251 : ℚ) / 2000 * 100) = 63 ∧
    autoCalibrate ⟨false, 0, 100, 0, 100⟩ [[some (1251/2000)]] ≠
      some (round ((1251 : ℚ) / 2000 * 100), round ((1251 : ℚ) / 2000 * 100)) := by
  have hvals : calibVals (sampleOf ⟨false, 0, 100, 0, 100⟩ [[some ((1251 : ℚ)/2000)]]) =
      [(1251 : ℚ)/2000] := by
    simp [calibVals, sampleOf, fEq_self]
  have hcode : autoCalibrate ⟨false, 0, 100, 0, 100⟩ [[some (1251/2000)]] = some (62, 62) := by
    unfold autoCalibrate
    rw [if_neg (by decide)]
    rw [hvals]
    have hi2 : truncQ ((2 : ℚ) / 100 * ((([((1251 : ℚ)/2000)].length : ℤ)) : ℚ)) = 0 := by
      norm_num [truncQ, Int.floor_eq_iff]
    have hi98 : truncQ ((98 : ℚ) / 100 * ((([((1251 : ℚ)/2000)].length : ℤ)) : ℚ)) = 0 := by
      norm_num [truncQ, Int.floor_eq_iff]
    have hp : truncQ ((1251 : ℚ)/2000 * 100) = 62 := by
      norm_num [truncQ, Int.floor_eq_iff]
    simp only [List.isEmpty_cons, sortAsc, List.insertionSort, List.orderedInsert,
      hi2, hi98, hp]
    have h20 : truncQ ((1251 : ℚ)/20) = 62 := by
      norm_num [truncQ, Int.floor_eq_iff]
    norm_num [sliderSet, hp]
    omega
  have hround : round ((1251 : ℚ) / 2000 * 100) = 63 := by
    norm_num [round_eq, Int.floor_eq_iff]
  refine ⟨hcode, hround, ?_⟩
  rw [hcode, hround]
  decide

/-- Claim C4 amended: auto-calibrate sorts the finite sample values
ascending, picks p2 at index max(0, ⌊0.02·n⌋) and p98 at index
min(n − 1, ⌊0.98·n⌋) over the sorted sequence of length n, and sets the
min and max sliders to trunc(p2·100) and trunc(p98·100), the float-to-int
truncation toward zero (not a rounding); for sample values in [−1, 1] the
slider clamp never engages. -/
theorem C4_autocalibrate_percentiles_truncate (roi : RoiState) (m : FMat)
    (h0 : totalCount m ≠ 0)
    (hne : calibVals (sampleOf roi m) ≠ [])
    (hbd : ∀ q ∈ calibVals (sampleOf roi m), -1 ≤ q ∧ q ≤ 1) :
    List.Sorted (· ≤ ·) (sortAsc (calibVals (sampleOf roi m))) ∧
    (sortAsc (calibVals (sampleOf roi m))).Perm (calibVals (sampleOf roi m)) ∧
    ∃ p2 p98 : ℚ,
      p2 = (sortAsc (calibVals (sampleOf roi m))).getD
          (max 0 ⌊(2 : ℚ) / 100 *
            (((sortAsc (calibVals (sampleOf roi m))).length : ℤ) : ℚ)⌋).toNat 0 ∧
      p98 = (sortAsc (calibVals (sampleOf roi m))).getD
          (min (((sortAsc (calibVals (sampleOf roi m))).length : ℤ) - 1)
            ⌊(98 : ℚ) / 100 *
              (((sortAsc (calibVals (sampleOf roi m))).length : ℤ) : ℚ)⌋).toNat 0 ∧
      autoCalibrate roi m = some (truncQ (p2 * 100), truncQ (p98 * 100)) := by
  classical
  set vals := calibVals (sampleOf roi m) with hvals
  set sorted := sortAsc vals with hsorted
  have hperm : sorted.Perm vals := List.perm_insertionSort _ _
  have hsort : List.Sorted (· ≤ ·) sorted := List.sorted_insertionSort _ _
  have hlen : 0 < sorted.length := by
    rw [hperm.length_eq]
    exact List.length_pos.2 hne
  have hn1 : (1 : ℚ) ≤ ((sorted.length : ℤ) : ℚ) := by exact_mod_cast hlen
  set n : ℤ := (sorted.length : ℤ) with hn
  have hi2nn : (0 : ℚ) ≤ (2 : ℚ) / 100 * (n : ℚ) := by positivity
  have hi98nn : (0 : ℚ) ≤ (98 : ℚ) / 100 * (n : ℚ) := by positivity
  have hfl2 : ⌊(2 : ℚ) / 100 * (n : ℚ)⌋ < n := by
    rw [Int.floor_lt]
    nlinarith
  have hi2lt : (max 0 ⌊(2 : ℚ) / 100 * (n : ℚ)⌋).toNat < sorted.length := by
    have h0le : (0 : ℤ) < n := by rw [hn]; exact_mod_cast hlen
    omega
  have hi98lt : (min (n - 1) ⌊(98 : ℚ) / 100 * (n : ℚ)⌋).toNat < sorted.length := by
    have h0le : (0 : ℤ) < n := by rw [hn]; exact_mod_cast hlen
    have : (0 : ℤ) ≤ ⌊(98 : ℚ) / 100 * (n : ℚ)⌋ := Int.floor_nonneg.2 hi98nn
    omega
  have hmem2 : sorted.getD (max 0 ⌊(2 : ℚ) / 100 * (n : ℚ)⌋).toNat 0 ∈ vals := by
    rw [List.getD_eq_getElem _ _ hi2lt]
    exact hperm.subset (List.getElem_mem hi2lt)
  have hmem98 : sorted.getD (min (n - 1) ⌊(98 : ℚ) / 100 * (n : ℚ)⌋).toNat 0 ∈ vals := by
    rw [List.getD_eq_getElem _ _ hi98lt]
    exact hperm.subset (List.getElem_mem hi98lt)
  refine ⟨hsort, hperm, _, _, rfl, rfl, ?_⟩
  unfold autoCalibrate
  rw [if_neg h0, ← hvals]
  have hie : vals.isEmpty = false := by
    simp [List.isEmpty_iff, hne]
  simp only [hie, Bool.false_eq_true, if_false, ← hsorted, ← hn,
    truncQ_of_nonneg _ hi2nn, truncQ_of_nonneg _ hi98nn]
  obtain ⟨hb2l, hb2r⟩ := hbd _ hmem2
  obtain ⟨hb98l, hb98r⟩ := hbd _ hmem98
  rw [sliderSet_id _ (truncQ_range _ (by nlinarith) (by nlinarith)).1
      (truncQ_range _ (by nlinarith) (by nlinarith)).2,
    sliderSet_id _ (truncQ_range _ (by nlinarith) (by nlinarith)).1
      (truncQ_range _ (by nlinarith) (by nlinarith)).2]

/-- Witness for the amended C4: a one-pixel matrix with value 0 yields
slider values (0, 0). -/
theorem C4_witness :
    autoCalibrate ⟨false, 0, 100, 0, 100⟩ [[some 0]] = some (0, 0) := by
  obtain ⟨p2, p98, h2, h98, heq⟩ :=
    (C4_autocalibrate_percentiles_truncate ⟨false, 0, 100, 0, 100⟩ [[some 0]]
      (by decide)
      (by simp [calibVals, sampleOf, fEq_self])
      (by simp [calibVals, sampleOf, fEq_self])).2.2
  have hv : calibVals (sampleOf ⟨false, 0, 100, 0, 100⟩ [[some (0 : ℚ)]]) = [0] := by
    simp [calibVals, sampleOf, fEq_self]
  rw [hv] at h2 h98
  have hp2 : p2 = 0 := by
    rw [h2]
    norm_num [sortAsc, List.insertionSort, List.orderedInsert, Int.floor_eq_iff]
  have hp98 : p98 = 0 := by
    rw [h98]
    norm_num [sortAsc, List.insertionSort, List.orderedInsert, Int.floor_eq_iff]
  rw [heq, hp2, hp98]
  norm_num [truncQ, Int.floor_eq_iff]

/-! Helper lemmas about the frame scheduler. -/

theorem onFrameReady_fps (proc : Frame → List (List LutEntry) × FMat) (interval : ℚ)
    (s : SchedState) (f : Frame) (t : ℚ) :
    (onFrameReady proc interval s f t).fps = s.fps := by
  simp only [onFrameReady]
  split <;> rfl

theorem onFrameReady_raw (proc : Frame → List (List LutEntry) × FMat) (interval : ℚ)
    (s : SchedState) (f : Frame) (t : ℚ) :
    (onFrameReady proc interval s f t).rawView = some f := by
  simp only [onFrameReady]
  split <;> rfl

theorem runSched_fps (proc : Frame → List (List LutEntry) × FMat) (interval : ℚ) :
    ∀ (evs : List (Frame × ℚ)) (s : SchedState),
      ((runSched proc interval s evs).1).fps = s.fps := by
  intro evs
  induction evs with
  | nil => intro s; rfl
  | cons e rest ih =>
      intro s
      obtain ⟨f, t⟩ := e
      simp only [runSched]
      split <;> rw [ih, onFrameReady_fps]

theorem runSched_gap_chain (proc : Frame → List (List LutEntry) × FMat) (interval : ℚ) :
    ∀ (evs : List (Frame × ℚ)) (s : SchedState),
      List.Chain (fun a b => interval ≤ b - a) s.lastProcessTime
        ((runSched proc interval s evs).2) := by
  intro evs
  induction evs with
  | nil => intro s; exact List.Chain.nil
  | cons e rest ih =>
      intro s
      obtain ⟨f, t⟩ := e
      simp only [runSched]
      split
      next hc =>
        have hlp : (onFrameReady proc interval s f t).lastProcessTime = s.lastProcessTime := by
          simp only [onFrameReady, if_pos hc]
        have h := ih (onFrameReady proc interval s f t)
        rw [hlp] at h
        exact h
      next hc =>
        rw [List.chain_cons]
        refine ⟨not_lt.1 hc, ?_⟩
        have hlp : (onFrameReady proc interval s f t).lastProcessTime = t := by
          simp only [onFrameReady, if_neg hc]
        have h := ih (onFrameReady proc interval s f t)
        rw [hlp] at h
        exact h

/-- Claim C3: the FPS estimate is never updated.  `onFrameReady` (the only
frame-path code) leaves `m_fps` unchanged on every frame, processed or
skipped, so along any run from the constructor state the telemetry FPS
line renders the constant 0.0, contradicting the claimed wall-clock-delta
update on each processed frame. -/
theorem C3_fps_constant_zero (proc : Frame → List (List LutEntry) × FMat)
    (interval : ℚ) (s : SchedState) (f : Frame) (t : ℚ) (evs : List (Frame × ℚ)) :
    (onFrameReady proc interval s f t).fps = s.fps ∧
    ((runSched proc interval initState evs).1).fps = 0 ∧
    (telemetryOf ((runSched proc interval initState evs).1).fps [[some 1]]).fpsLine = 0 := by
  have h := runSched_fps proc interval evs initState
  exact ⟨onFrameReady_fps proc interval s f t, h, by rw [telemetryOf, h]; rfl⟩

/-- Claim C7: the raw display is updated on every arrived frame; the
processed path runs exactly when now − lastProcessTime ≥ processInterval
(a skipped frame leaves the whole state, in particular LastNDVI and the
processed display, unchanged except the raw view; a processed frame sets
lastProcessTime to now and publishes the new NDVI and display); therefore
consecutive processed-path executions of any run from the initial state
are separated by at least the interval. -/
theorem C7_throttle_processed_path (proc : Frame → List (List LutEntry) × FMat)
    (interval : ℚ) (s : SchedState) (f : Frame) (t : ℚ) :
    (onFrameReady proc interval s f t).rawView = some f ∧
    (t - s.lastProcessTime < interval →
      onFrameReady proc interval s f t = { s with rawView := some f }) ∧
    (interval ≤ t - s.lastProcessTime →
      (onFrameReady proc interval s f t).lastProcessTime = t ∧
      (onFrameReady proc interval s f t).lastNDVI = some (proc f).2 ∧
      (onFrameReady proc interval s f t).procView = some (proc f).1) ∧
    ∀ evs : List (Frame × ℚ),
      List.Chain' (fun a b => interval ≤ b - a)
        ((runSched proc interval initState evs).2) := by
  refine ⟨onFrameReady_raw proc interval s f t, ?_, ?_, ?_⟩
  · intro hc
    simp only [onFrameReady, if_pos hc]
  · intro hc
    have hnc : ¬ (t - s.lastProcessTime < interval) := not_lt.2 hc
    refine ⟨?_, ?_, ?_⟩ <;> simp only [onFrameReady, if_neg hnc]
  · intro evs
    have h := runSched_gap_chain proc interval evs initState
    cases hpts : (runSched proc interval initState evs).2 with
    | nil => exact List.chain'_nil
    | cons a l =>
        rw [hpts] at h
        exact (List.chain_cons.1 h).2

/-- Witness for C7: a first frame arriving at t = 5 with interval 0.1 is
processed (5 − 0 ≥ 0.1) and the raw view is always published. -/
theorem C7_witness :
    (onFrameReady (fun _ => ([], [])) (1/10) initState [] 5).lastProcessTime = 5 ∧
    (onFrameReady (fun _ => ([], [])) (1/10) initState [] 5).rawView = some [] :=
  ⟨((C7_throttle_processed_path (fun _ => ([], [])) (1/10) initState [] 5).2.2.1
      (by norm_num [initState])).1,
   (C7_throttle_processed_path (fun _ => ([], [])) (1/10) initState [] 5).1⟩

/-- Claim C8: for slider values in [−100, 100] and a palette index among
the four named palettes, saving the settings and then restoring them is
the identity on the persisted (min, max, palette) triple. -/
theorem C8_settings_roundtrip (u : UIState)
    (hmin1 : -100 ≤ u.minS) (hmin2 : u.minS ≤ 100)
    (hmax1 : -100 ≤ u.maxS) (hmax2 : u.maxS ≤ 100)
    (hpal : u.paletteIdx < paletteNames.length) :
    restoreSettings (saveSettings u) u = u := by
  obtain ⟨mn, mx, pi⟩ := u
  have h4 : pi < 4 := by simpa [paletteNames] using hpal
  simp only [saveSettings, restoreSettings, UIState.mk.injEq]
  refine ⟨sliderSet_id mn hmin1 hmin2, sliderSet_id mx hmax1 hmax2, ?_⟩
  interval_cases pi <;> decide

/-- Witness for C8 at the spec's scenario: min = −25, max = 60, palette
Thermal (index 2). -/
theorem C8_witness :
    restoreSettings (saveSettings ⟨-25, 60, 2⟩) ⟨-25, 60, 2⟩ = ⟨-25, 60, 2⟩ :=
  C8_settings_roundtrip ⟨-25, 60, 2⟩ (by decide) (by decide) (by decide) (by decide)
    (by decide)

/-- Histogram length preservation: the counting fold keeps the 50 bins. -/
theorem histCounts_length (vmin vmax : ℚ) (data : List ℚ) :
    (histCounts vmin vmax data).length = 50 := by
  unfold histCounts
  suffices h : ∀ (l : List ℚ) (acc : List ℕ),
      (l.foldl
        (fun h v =>
          let b := (binOf vmin vmax v).getD 0
          h.set b (h.getD b 0 + 1)) acc).length = acc.length by
    rw [h]
    exact List.length_replicate 50 0
  intro l
  induction l with
  | nil => intro acc; rfl
  | cons d ds ih =>
      intro acc
      rw [List.foldl_cons, ih, List.length_set]

/-- Claim C10: with vmax > vmin every histogram bin index computed in the
preview is defined and clamped into [0, 49], so the 50-bin count vector
(whose length stays 50) is never indexed out of bounds; the division by
vmax − vmin is unguarded, and at the degenerate range vmax = vmin the raw
bin value is undefined (the preview path has no all-zero fallback). -/
theorem C10_preview_bin_bounds (vmin vmax : ℚ) (n : FMat)
    (hrange : vmin < vmax) (hfin : n.flatten.filterMap id ≠ []) :
    (∀ v ∈ previewData n, ∃ b : ℕ, binOf vmin vmax v = some b ∧ b ≤ 49) ∧
    (histCounts vmin vmax (previewData n)).length = 50 ∧
    ∀ v : ℚ, binOf vmin vmin v = none := by
  refine ⟨?_, histCounts_length vmin vmax (previewData n), ?_⟩
  · intro v _
    have hne : vmax - vmin ≠ 0 := sub_ne_zero.2 (ne_of_gt hrange)
    refine ⟨binClamp (truncQ ((v - vmin) / (vmax - vmin) * 50)), ?_, ?_⟩
    · simp [binOf, binRaw, hne]
    · unfold binClamp
      split
      · omega
      · split <;> omega
  · intro v
    simp [binOf, binRaw]

/-- Witness for C10 at the range (−1, 1) on a one-pixel matrix, plus the
undefined degenerate-range bin at vmin = vmax = −1. -/
theorem C10_witness :
    (histCounts (-1) 1 (previewData [[some 0]])).length = 50 ∧
    binOf (-1) (-1) 0 = none :=
  ⟨(C10_preview_bin_bounds (-1) 1 [[some 0]] (by norm_num) (by simp)).2.1,
   (C10_preview_bin_bounds (-1) 1 [[some 0]] (by norm_num) (by simp)).2.2 0⟩

end Raziel
